import Mathlib

/-!
Verification development for the `context_windows_lab` repository.

The Python sources are shallowly embedded: pure string manipulation is
modelled by structurally recursive functions on `List Char` / `String`,
mutable objects (RNG, scratchpad) are threaded as explicit state, and
code that can raise returns `Except String`.  Python `float` results of
the scoring layer are modelled as exact rationals; the one genuinely
irrational quantity (`math.sqrt` in the statistics layer) is modelled by
`Real.sqrt`.
-/

namespace ContextWindowsLab

/-! ### Python string primitives

`pySplit` is Python's `str.split()` (split on runs of whitespace,
dropping empty pieces), `pyJoin` is `sep.join(list)`, `pyReplace` is
`str.replace` (all non-overlapping occurrences, left to right),
`pyStrip` is `str.strip()`, `pyIn` is the substring test `a in b`.
Only the ASCII whitespace characters Python treats as space and that can
occur in this repository's data are covered. -/

def pyIsSpace (c : Char) : Bool :=
  c == ' ' || c == '\t' || c == '\n' || c == '\r' || c == '\x0b' || c == '\x0c'

/-- Accumulator-based word splitter over characters: `acc` holds the
current (reversed) in-progress word. -/
def wordsAux : List Char → List Char → List (List Char)
  | [], acc => if acc = [] then [] else [acc.reverse]
  | c :: t, acc =>
    if pyIsSpace c then
      if acc = [] then wordsAux t [] else acc.reverse :: wordsAux t []
    else
      wordsAux t (c :: acc)

def pySplitL (s : List Char) : List (List Char) := wordsAux s []

def pySplit (s : String) : List String := (pySplitL s.data).map String.mk

/-- `sep.join(parts)` on character lists. -/
def pyJoinL (sep : List Char) : List (List Char) → List Char
  | [] => []
  | [w] => w
  | w :: ws => w ++ sep ++ pyJoinL sep ws

def pyJoin (sep : String) (parts : List String) : String :=
  String.mk (pyJoinL sep.data (parts.map String.data))

/-- `str.replace` on character lists, fuel-bounded (the fuel
`t.length` is enough: every step consumes at least one character when
the pattern is non-empty, and an empty pattern is treated as no-op,
which agrees with every call site in the repository). -/
def replaceAux (p r : List Char) : Nat → List Char → List Char
  | 0, t => t
  | _ + 1, [] => []
  | fuel + 1, c :: t =>
    if p ≠ [] ∧ p.isPrefixOf (c :: t) then
      r ++ replaceAux p r fuel ((c :: t).drop p.length)
    else
      c :: replaceAux p r fuel t

def pyReplace (s pat rep : String) : String :=
  String.mk (replaceAux pat.data rep.data s.data.length s.data)

def pyStrip (s : String) : String :=
  String.mk (((s.data.dropWhile pyIsSpace).reverse.dropWhile pyIsSpace).reverse)

/-- Positions (overlapping) at which `p` occurs in `t`; `occCount p t`
is the number of such positions, the formal reading of "contains `p`
`n` times". -/
def occCountL (p : List Char) : List Char → Nat
  | [] => if p = [] then 1 else 0
  | c :: t => (if p.isPrefixOf (c :: t) then 1 else 0) + occCountL p (c :: t).tail

def occCount (p s : String) : Nat := occCountL p.data s.data

def pyInL (p : List Char) : List Char → Bool
  | [] => p.isPrefixOf []
  | c :: t => p.isPrefixOf (c :: t) || pyInL p t

/-- Python's `needle in haystack`. -/
def pyIn (needle haystack : String) : Bool := pyInL needle.data haystack.data

/-- `p` occurs somewhere in `s` (propositional form). -/
def IsSubstrOf (p s : String) : Prop := ∃ a b : List Char, s.data = a ++ p.data ++ b

def pyLower (s : String) : String := String.mk (s.data.map Char.toLower)

/-! ### AccuracyEvaluator (`evaluation/accuracy_evaluator.py`)

`_preprocess` collapses whitespace, strips the fixed punctuation set
`[.,!?;:"]`, lowercases unless `case_sensitive`, and strips.  The three
scoring methods return Python floats in `{0.0, 1.0}` or a ratio of set
sizes; they are modelled as exact rationals.  `_validate_inputs` only
rejects non-string arguments, which the Lean types rule out. -/

inductive EvalMethod | exact | contains | partialM
deriving DecidableEq, Repr

structure AccuracyEvaluator where
  method : EvalMethod
  caseSensitive : Bool

def punctChars : List Char := ['.', ',', '!', '?', ';', ':', '"']

/-- `re.sub(r'[.,!?;:"]', "", text)`. -/
def removePunct (s : String) : String :=
  String.mk (s.data.filter (fun c => !(punctChars.contains c)))

/-- `AccuracyEvaluator._preprocess`. -/
def preprocess (ev : AccuracyEvaluator) (text : String) : String :=
  let collapsed := pyJoin " " (pySplit text)
  let noPunct := removePunct collapsed
  let cased := if ev.caseSensitive then noPunct else pyLower noPunct
  pyStrip cased

/-- `AccuracyEvaluator._exact_match` (arguments already preprocessed). -/
def exactMatch (response expected : String) : ℚ :=
  if response = expected then 1 else 0

/-- `AccuracyEvaluator._contains_match` (arguments already preprocessed). -/
def containsMatch (response expected : String) : ℚ :=
  if pyIn expected response then 1 else 0

/-- `AccuracyEvaluator._partial_match` (arguments already preprocessed):
Jaccard similarity of the word sets, 0 when `expected` has no words. -/
def partialMatch (response expected : String) : ℚ :=
  let responseWords : Finset String := (pySplit response).toFinset
  let expectedWords : Finset String := (pySplit expected).toFinset
  if expectedWords = ∅ then 0
  else
    let intersection := responseWords ∩ expectedWords
    let union := responseWords ∪ expectedWords
    if union = ∅ then 0 else (intersection.card : ℚ) / (union.card : ℚ)

/-- `AccuracyEvaluator.evaluate` (the score of `evaluate_detailed`). -/
def evaluate (ev : AccuracyEvaluator) (response expected : String) : ℚ :=
  let resp := preprocess ev response
  let exp := preprocess ev expected
  match ev.method with
  | .exact => exactMatch resp exp
  | .contains => containsMatch resp exp
  | .partialM => partialMatch resp exp

/-- Word set of a string after preprocessing, as used by `_partial_match`. -/
def wordSet (ev : AccuracyEvaluator) (s : String) : Finset String :=
  (pySplit (preprocess ev s)).toFinset

/-! ### Statistics (`evaluation/metrics.py`)

`calculate_statistics` raises on an empty list (modelled by
`Except.error` carrying the message) and otherwise computes mean,
Bessel-corrected standard deviation, min, max and a 95% normal
confidence interval.  `math.sqrt` is modelled by `Real.sqrt`, so the
fields that depend on it live in `ℝ`. -/

structure Statistics where
  mean : ℝ
  std : ℝ
  min : ℝ
  max : ℝ
  count : Nat
  confidenceInterval95 : ℝ × ℝ

noncomputable def calculateStatistics (scores : List ℚ) : Except String Statistics :=
  if scores = [] then .error "Cannot calculate statistics for empty list"
  else
    let n := scores.length
    let meanVal : ℚ := scores.sum / n
    let mn : ℚ := scores.foldr min (scores.headD 0)
    let mx : ℚ := scores.foldr max (scores.headD 0)
    if 1 < n then
      let variance : ℚ := (scores.map (fun x => (x - meanVal) ^ 2)).sum / ((n : ℚ) - 1)
      let stdVal : ℝ := Real.sqrt variance
      let margin : ℝ := 1.96 * (stdVal / Real.sqrt n)
      .ok ⟨meanVal, stdVal, mn, mx, n, ((meanVal : ℝ) - margin, (meanVal : ℝ) + margin)⟩
    else
      .ok ⟨meanVal, 0, mn, mx, n, ((meanVal : ℝ), (meanVal : ℝ))⟩

/-! ### Summarizer (`context_management/summarizer.py`)

`pyLastSlice` is Python's `words[-h:]`: for `h = 0` the slice
`words[-0:]` is `words[0:]`, i.e. the whole list — the source of the
`first_last` anomaly for `max_words <= 1`. -/

structure Summarizer where
  maxWords : Nat

def pyLastSlice {α : Type} (l : List α) (h : Nat) : List α :=
  if h = 0 then l else l.drop (l.length - h)

/-- `Summarizer.summarize`. -/
def summarize (sm : Summarizer) (text : String) (method : String) : String :=
  if text = "" then ""
  else
    let words := pySplit text
    if words.length ≤ sm.maxWords then text
    else if method = "truncate" then
      pyJoin " " (words.take sm.maxWords) ++ "..."
    else if method = "first_last" then
      let half := sm.maxWords / 2
      pyJoin " " (words.take half) ++ " [...] " ++ pyJoin " " (pyLastSlice words half)
    else if method = "middle" then
      let startIdx := (words.length - sm.maxWords) / 2
      "[...] " ++ pyJoin " " ((words.drop startIdx).take sm.maxWords) ++ " [...]"
    else
      pyJoin " " (words.take sm.maxWords) ++ "..."

/-! ### Scratchpad (`context_management/scratchpad.py`)

`memory` is a Python dict with insertion order: writing an existing key
updates it in place, a new key is appended.  `history` is the
append-only log; it never influences `memory` or the value returned by
`read`. -/

def memWrite : List (String × String) → String → String → List (String × String)
  | [], k, v => [(k, v)]
  | (k', v') :: t, k, v =>
    if k' = k then (k, v) :: t else (k', v') :: memWrite t k v

def memRead : List (String × String) → String → Option String
  | [], _ => none
  | (k', v') :: t, k => if k' = k then some v' else memRead t k

structure Scratchpad where
  memory : List (String × String)
  history : List String

def Scratchpad.empty : Scratchpad := ⟨[], []⟩

/-- `Scratchpad.write`. -/
def spWrite (sp : Scratchpad) (key value : String) : Scratchpad :=
  ⟨memWrite sp.memory key value,
   sp.history ++ ["WRITE: " ++ key ++ " = " ++ value]⟩

/-- `Scratchpad.read`: the returned value is `memory.get(key)`; the
history side effect (performed only for truthy values) does not touch
`memory`. -/
def spRead (sp : Scratchpad) (key : String) : Option String :=
  memRead sp.memory key

/-- `Scratchpad.clear`. -/
def spClear (sp : Scratchpad) : Scratchpad :=
  ⟨[], sp.history ++ ["CLEAR: All memory cleared"]⟩

/-! ### DocumentGenerator (`data_generation/document_generator.py`)

The generator draws from `random.Random(seed)`.  That generator is a
pure function of the seed; it is embedded as a threaded state `Rng`
holding an arbitrary value stream (indexed draws) and a position.
`rngChoice` models `Random.choice`: it returns the element at the drawn
index and advances the stream.  `mkGenState family seed` is the state
of a freshly constructed `DocumentGenerator(seed=seed)`, where `family`
stands for the (deterministic) seed-to-stream map of the Mersenne
Twister; all theorems hold for every such family.  The global
`random.seed(seed)` call in `__init__` touches only the module-level
generator, which `generate_documents` never uses. -/

structure Rng where
  stream : Nat → Nat
  pos : Nat

def rngChoice {α : Type} (r : Rng) (l : List α) (dflt : α) : α × Rng :=
  (l.getD (r.stream r.pos % l.length) dflt, ⟨r.stream, r.pos + 1⟩)

def mkRng (family : Nat → Nat → Nat) (seed : Nat) : Rng := ⟨family seed, 0⟩

def defaultTemplates : List String :=
  [ "{subject} {verb} {object} for optimal performance and efficiency.",
    "In recent developments, {subject} has demonstrated the need for {object}.",
    "According to industry standards, {subject} {verb} {object} to ensure quality.",
    "Research indicates that {subject} {verb} {object} in most scenarios.",
    "The implementation of {subject} {verb} {object} across all departments.",
    "Historical data shows that {subject} consistently {verb} {object}.",
    "Best practices suggest that {subject} should prioritize {object}.",
    "Technical documentation confirms that {subject} {verb} {object}.",
    "Stakeholder feedback emphasizes that {subject} {verb} {object}.",
    "Performance metrics reveal that {subject} {verb} {object} effectively." ]

def fillSubjects : List String :=
  ["The company", "The team", "The project", "The system", "The data"]

def fillVerbs : List String :=
  ["requires", "needs", "provides", "supports", "manages"]

def fillObjects : List String :=
  [ "careful analysis", "detailed planning", "comprehensive testing",
    "thorough review", "systematic approach" ]

/-- `DocumentGenerator._fill_template`. -/
def fillTemplate (rng : Rng) (template : String) : String × Rng :=
  let (subj, rng1) := rngChoice rng fillSubjects ""
  let (verb, rng2) := rngChoice rng1 fillVerbs ""
  let (obj, rng3) := rngChoice rng2 fillObjects ""
  (pyReplace (pyReplace (pyReplace template "{subject}" subj) "{verb}" verb) "{object}" obj,
   rng3)

/-- One step of the `while current_words < target_words` loop of
`_generate_filler_text`, fuel-bounded.  Every filled default template
contains at least one word, so each iteration strictly increases
`currentWords`; the fuel `target + 1` used below is therefore never
exhausted on the code's own template set. -/
def fillerLoop (rng : Rng) (target : Nat) :
    Nat → List String → Nat → List String × Rng
  | 0, parts, _ => (parts, rng)
  | fuel + 1, parts, currentWords =>
    if currentWords < target then
      let (template, rng1) := rngChoice rng defaultTemplates ""
      let (filled, rng2) := fillTemplate rng1 template
      let wordsInFilled := (pySplit filled).length
      if currentWords + wordsInFilled ≤ target + 10 then
        fillerLoop rng2 target fuel (parts ++ [filled]) (currentWords + wordsInFilled)
      else
        let remaining := target - currentWords
        (parts ++ [pyJoin " " ((pySplit filled).take remaining)], rng2)
    else
      (parts, rng)

/-- `DocumentGenerator._generate_filler_text`. -/
def generateFillerText (rng : Rng) (targetWords : Nat) : String × Rng :=
  let (parts, rng1) := fillerLoop rng targetWords (targetWords + 1) [] 0
  (pyJoin " " parts, rng1)

inductive FactPosition | start | middle | done
deriving DecidableEq, Repr

/-- The fact-insertion word index of `_embed_fact` (`W` = word count of
the filler).  `FactPosition.done` stands for the string `"end"` (a Lean
keyword).  In Python `max(len(words) - 20, 3*len(words)//4)` the first
argument may be negative, in which case the second (non-negative) one
wins — exactly the behaviour of `Nat` truncated subtraction. -/
def insertIndex (position : FactPosition) (wordCount : Nat) : Nat :=
  match position with
  | .start => min 20 (wordCount / 4)
  | .middle => wordCount / 2
  | .done => max (wordCount - 20) (3 * wordCount / 4)

/-- Python `list.insert(idx, x)` (clamps `idx` to the list length). -/
def pyInsertAt {α : Type} (l : List α) (idx : Nat) (x : α) : List α :=
  l.take idx ++ x :: l.drop idx

/-- `DocumentGenerator._embed_fact`. -/
def embedFact (text fact : String) (position : FactPosition) : String :=
  let words := pySplit text
  pyJoin " " (pyInsertAt words (insertIndex position words.length) fact)

structure DocMetadata where
  docId : Nat
  wordCount : Nat
  targetWords : Nat
  generatedBy : String
deriving DecidableEq, Repr

structure Document where
  content : String
  fact : Option String
  factPosition : Option FactPosition
  metadata : DocMetadata
deriving DecidableEq, Repr

/-- The `for i in range(num_docs)` loop body of `generate_documents`:
generate filler, embed the fact, attach metadata. -/
def genDocsAux (wordsPerDoc : Nat) (fact : String) (position : FactPosition) :
    Rng → Nat → Nat → List Document × Rng
  | rng, 0, _ => ([], rng)
  | rng, count + 1, docId =>
    let (filler, rng1) := generateFillerText rng wordsPerDoc
    let content := embedFact filler fact position
    let doc : Document :=
      ⟨content, some fact, some position,
       ⟨docId, (pySplit content).length, wordsPerDoc, "DocumentGenerator"⟩⟩
    let (rest, rng2) := genDocsAux wordsPerDoc fact position rng1 count (docId + 1)
    (doc :: rest, rng2)

/-- `DocumentGenerator._validate_inputs` followed by the generation
loop of `generate_documents`.  The `ValueError`s become
`Except.error`. -/
def generateDocuments (rng : Rng) (numDocs wordsPerDoc : Nat) (fact : String)
    (position : FactPosition) : Except String (List Document × Rng) :=
  if numDocs = 0 then .error "num_docs must be positive"
  else if wordsPerDoc < 100 then .error "words_per_doc must be >= 100 for meaningful documents"
  else if pyStrip fact = "" then .error "fact cannot be empty"
  else .ok (genDocsAux wordsPerDoc fact position rng numDocs 0)

/-! ### BaseExperiment (`experiments/base_experiment.py`)

The template method is embedded as a record of hooks over abstract
`Data`, `Resp`, `Row`, `Stats` and `Viz` types.  Each hook may raise
(`Except String`).  The hooks take the iteration index: a parallel run
re-executes them in per-iteration worker processes whose outcomes may
differ, while the sequential path performs a single invocation (index
`0`).  `analyze`/`visualize` consume `self.results`, i.e. the
accumulated row list, and `_save_results` may fail on I/O. -/

structure ExperimentConfig where
  name : String
  iterations : Nat
  saveResults : Bool
  generateVisualizations : Bool
  useMultiprocessing : Bool
  maxWorkers : Option Nat
deriving DecidableEq

structure ExpHooks (Data Resp Row Stats Viz : Type) where
  generateData : Nat → Except String Data
  executeQueries : Nat → Data → Except String Resp
  evaluateResponses : Nat → Resp → Except String (List Row)
  analyze : List Row → Except String Stats
  visualize : List Row → Except String (List Viz)
  save : List Row → Stats → Except String Unit

structure ExperimentResults (Row Stats Viz : Type) where
  rawResults : List Row
  statistics : Option Stats
  visualizationPaths : List Viz
  success : Bool
  error : Option String
deriving DecidableEq

variable {Data Resp Row Stats Viz : Type}

/-- The `generate_data → execute_queries → evaluate_responses` chain of
one iteration (the body of the `try` in `_run_single_iteration`, and
steps 1–3 of the sequential `run`). -/
def runIteration (h : ExpHooks Data Resp Row Stats Viz) (i : Nat) :
    Except String (List Row) := do
  let data ← h.generateData i
  let responses ← h.executeQueries i data
  h.evaluateResponses i responses

/-- `BaseExperiment._run_single_iteration`: any exception is caught and
the iteration yields an empty row list. -/
def runSingleIteration (h : ExpHooks Data Resp Row Stats Viz) (i : Nat) : List Row :=
  match runIteration h i with
  | .ok rows => rows
  | .error _ => []

/-- The sequential body of `BaseExperiment.run` (the `try`/`except`):
on any exception the result carries `success=False`, the message, and
whatever `self.results` holds at that point (`[]` before evaluation
completes, the evaluated rows afterwards). -/
def runSeq (cfg : ExperimentConfig) (h : ExpHooks Data Resp Row Stats Viz) :
    ExperimentResults Row Stats Viz :=
  match runIteration h 0 with
  | .error e => ⟨[], none, [], false, some e⟩
  | .ok rows =>
    match h.analyze rows with
    | .error e => ⟨rows, none, [], false, some e⟩
    | .ok stats =>
      match (if cfg.generateVisualizations then h.visualize rows else .ok []) with
      | .error e => ⟨rows, none, [], false, some e⟩
      | .ok viz =>
        match (if cfg.saveResults then h.save rows stats else .ok ()) with
        | .error e => ⟨rows, none, [], false, some e⟩
        | .ok _ => ⟨rows, some stats, viz, true, none⟩

/-- The first exception message along the sequential path, if any
(mirrors the `try` body stage by stage). -/
def seqStageError (cfg : ExperimentConfig) (h : ExpHooks Data Resp Row Stats Viz) :
    Option String :=
  match runIteration h 0 with
  | .error e => some e
  | .ok rows =>
    match h.analyze rows with
    | .error e => some e
    | .ok stats =>
      match (if cfg.generateVisualizations then h.visualize rows else .ok []) with
      | .error e => some e
      | .ok _ =>
        match (if cfg.saveResults then h.save rows stats else .ok ()) with
        | .error e => some e
        | .ok _ => none

/-- `BaseExperiment._run_parallel_iterations`: `pool.map` preserves
iteration order, failed workers contribute `[]` (skipping falsy lists
in the aggregation loop equals flattening), and the post-aggregation
steps run outside any `try`, so their exceptions propagate
(`Except.error`). -/
def parallelRows (cfg : ExperimentConfig) (h : ExpHooks Data Resp Row Stats Viz) : List Row :=
  ((List.range cfg.iterations).map (runSingleIteration h)).flatten

def runParallel (cfg : ExperimentConfig) (h : ExpHooks Data Resp Row Stats Viz) :
    Except String (ExperimentResults Row Stats Viz) :=
  match h.analyze (parallelRows cfg h) with
  | .error e => .error e
  | .ok stats =>
    match (if cfg.generateVisualizations
        then h.visualize (parallelRows cfg h) else .ok []) with
    | .error e => .error e
    | .ok viz =>
      match (if cfg.saveResults
          then h.save (parallelRows cfg h) stats else .ok ()) with
      | .error e => .error e
      | .ok _ => .ok ⟨parallelRows cfg h, some stats, viz, true, none⟩

/-- `BaseExperiment.run`: the parallel branch is taken before the
`try`, so only the sequential path is exception-safe. -/
def runExperiment (cfg : ExperimentConfig) (h : ExpHooks Data Resp Row Stats Viz) :
    Except String (ExperimentResults Row Stats Viz) :=
  if 1 < cfg.iterations ∧ cfg.useMultiprocessing then runParallel cfg h
  else .ok (runSeq cfg h)

/-! ### WRITE strategy of Experiment 4 (`experiments/exp4_context_strategies.py`)

At step `i` (0-based) the WRITE branch of `_execute_queries` performs
exactly one scratchpad mutation: `write(f"step_{i + 1}", facts[i])`.
`get_summary` (also called there) reads `memory` without modifying it,
and neither `read` nor `clear` is invoked.  `natToDec` is the decimal
rendering used by the f-string. -/

/-- Decimal digits of `n`, most significant first, fuel-bounded
(`n + 1` is always enough fuel since `n / 10 < n` for `n ≥ 10`). -/
def natToDecAux : Nat → Nat → List Char
  | 0, _ => []
  | fuel + 1, n =>
    if n < 10 then [Nat.digitChar n]
    else natToDecAux fuel (n / 10) ++ [Nat.digitChar (n % 10)]

def natToDec (n : Nat) : String := String.mk (natToDecAux (n + 1) n)

/-- Decimal parser used to prove `natToDec` injective. -/
def decValAux : List Char → Nat → Nat
  | [], acc => acc
  | c :: t, acc => decValAux t (acc * 10 + (c.toNat - 48))

/-- The scratchpad key `f"step_{i}"`. -/
def stepKey (i : Nat) : String := "step_" ++ natToDec i

/-- The scratchpad of the WRITE strategy after the first `k` steps of a
run over `facts`:  steps `0, …, k-1` each wrote their fact under their
step key. -/
def writeStrategyScratchpad (facts : List String) (k : Nat) : Scratchpad :=
  (List.range k).foldl (fun sp i => spWrite sp (stepKey (i + 1)) (facts.getD i "")) .empty

/-! ### Concrete experiment fixtures

Small hook instantiations used to evaluate the orchestrator on concrete
runs: `unitHooks` is an experiment whose every iteration succeeds with a
single row, `failSecondIterationHooks` raises inside the second
iteration (index 1), `failGenerateHooks` raises already in
`generate_data`. -/

def unitHooks : ExpHooks Unit Unit Nat Unit Unit :=
  ⟨fun _ => .ok (), fun _ _ => .ok (), fun _ _ => .ok [0],
   fun _ => .ok (), fun _ => .ok [], fun _ _ => .ok ()⟩

def failSecondIterationHooks : ExpHooks Unit Unit Nat Unit Unit :=
  ⟨fun i => if i = 1 then .error "boom" else .ok (),
   fun _ _ => .ok (), fun i _ => .ok [i],
   fun _ => .ok (), fun _ => .ok [], fun _ _ => .ok ()⟩

def failGenerateHooks : ExpHooks Unit Unit Nat Unit Unit :=
  ⟨fun _ => .error "boom", fun _ _ => .ok (), fun _ _ => .ok [0],
   fun _ => .ok (), fun _ => .ok [], fun _ _ => .ok ()⟩

def cfgPar2 : ExperimentConfig := ⟨"demo", 2, false, false, true, none⟩

def cfgSeq2 : ExperimentConfig := ⟨"demo", 2, false, false, false, none⟩

def cfgPar3 : ExperimentConfig := ⟨"demo", 3, false, false, true, none⟩

/-! ## Lemmas about the word splitter and joiner -/

theorem wordsAux_length_acc (t : List Char) :
    ∀ acc₁ acc₂, acc₁ ≠ [] → acc₂ ≠ [] →
      (wordsAux t acc₁).length = (wordsAux t acc₂).length := by
  induction t with
  | nil => intro a b ha hb; simp [wordsAux, ha, hb]
  | cons c t ih =>
    intro a b ha hb
    cases hc : pyIsSpace c with
    | true => simp [wordsAux, hc, ha, hb]
    | false =>
      simp only [wordsAux, hc, Bool.false_eq_true, if_false]
      exact ih (c :: a) (c :: b) (by simp) (by simp)

theorem wordsAux_length_le (t : List Char) :
    ∀ acc, (wordsAux t acc).length ≤ (if acc = [] then 0 else 1) + (wordsAux t []).length := by
  induction t with
  | nil => intro acc; by_cases h : acc = [] <;> simp [wordsAux, h]
  | cons c t ih =>
    intro acc
    cases hc : pyIsSpace c with
    | true =>
      by_cases h : acc = []
      · simp [wordsAux, hc, h]
      · simp [wordsAux, hc, h]
        omega
    | false =>
      by_cases h : acc = []
      · subst h; simp [wordsAux, hc]
      · simp only [wordsAux, hc, Bool.false_eq_true, if_false, h]
        rw [wordsAux_length_acc t (c :: acc) [c] (by simp) (by simp)]
        exact Nat.le_add_left _ 1

theorem wordsAux_append_length_le (a : List Char) :
    ∀ b acc, (wordsAux (a ++ b) acc).length ≤
      (wordsAux a acc).length + (wordsAux b []).length := by
  induction a with
  | nil =>
    intro b acc
    simp only [List.nil_append]
    by_cases h : acc = []
    · subst h; simp [wordsAux]
    · have h1 := wordsAux_length_le b acc
      simp only [h, if_false] at h1
      simp [wordsAux, h]
      omega
  | cons c a ih =>
    intro b acc
    cases hc : pyIsSpace c with
    | true =>
      by_cases h : acc = []
      · subst h; simpa [wordsAux, hc] using ih b []
      · have h1 := ih b []
        simp [wordsAux, hc, h]
        omega
    | false =>
      simp only [List.cons_append, wordsAux, hc, Bool.false_eq_true, if_false]
      exact ih b (c :: acc)

theorem wordsAux_no_space (w : List Char) :
    ∀ acc, (∀ c ∈ w, pyIsSpace c = false) →
      wordsAux w acc = if acc.reverse ++ w = [] then [] else [acc.reverse ++ w] := by
  induction w with
  | nil =>
    intro acc _
    by_cases h : acc = [] <;> simp [wordsAux, h]
  | cons c w ih =>
    intro acc h
    have hc : pyIsSpace c = false := h c (by simp)
    simp only [wordsAux, hc, Bool.false_eq_true, if_false]
    rw [ih (c :: acc) (fun x hx => h x (by simp [hx]))]
    simp [List.append_assoc]

theorem wordsAux_word_space (w : List Char) :
    ∀ rest acc, (∀ c ∈ w, pyIsSpace c = false) →
      wordsAux (w ++ ' ' :: rest) acc =
        if acc.reverse ++ w = [] then wordsAux rest []
        else (acc.reverse ++ w) :: wordsAux rest [] := by
  induction w with
  | nil =>
    intro rest acc _
    have hs : pyIsSpace ' ' = true := rfl
    by_cases h : acc = [] <;> simp [wordsAux, hs, h]
  | cons c w ih =>
    intro rest acc h
    have hc : pyIsSpace c = false := h c (by simp)
    simp only [List.cons_append, wordsAux, hc, Bool.false_eq_true, if_false, List.append_eq]
    rw [ih rest (c :: acc) (fun x hx => h x (by simp [hx]))]
    simp [List.append_assoc]

theorem wordsAux_mem (t : List Char) :
    ∀ acc, (∀ c ∈ acc, pyIsSpace c = false) →
      ∀ w ∈ wordsAux t acc, w ≠ [] ∧ ∀ c ∈ w, pyIsSpace c = false := by
  induction t with
  | nil =>
    intro acc hacc w hw
    by_cases h : acc = []
    · simp [wordsAux, h] at hw
    · simp only [wordsAux, h, if_neg, if_false, List.mem_singleton] at hw
      subst hw
      refine ⟨by simpa using h, fun c hc => hacc c (by simpa using hc)⟩
  | cons c t ih =>
    intro acc hacc w hw
    cases hc : pyIsSpace c with
    | true =>
      by_cases h : acc = []
      · have hred : wordsAux (c :: t) acc = wordsAux t [] := by simp [wordsAux, hc, h]
        rw [hred] at hw
        exact ih [] (by simp) w hw
      · have hred : wordsAux (c :: t) acc = acc.reverse :: wordsAux t [] := by
          simp [wordsAux, hc, h]
        rw [hred] at hw
        rcases List.mem_cons.mp hw with hw | hw
        · subst hw
          refine ⟨by simpa using h, fun x hx => hacc x (by simpa using hx)⟩
        · exact ih [] (by simp) w hw
    | false =>
      have hred : wordsAux (c :: t) acc = wordsAux t (c :: acc) := by
        simp [wordsAux, hc]
      rw [hred] at hw
      refine ih (c :: acc) ?_ w hw
      intro x hx
      rcases List.mem_cons.mp hx with hx | hx
      · subst hx; exact hc
      · exact hacc x hx

theorem pyJoinL_cons_ne (sep : List Char) (w : List Char) (ws : List (List Char))
    (h : ws ≠ []) : pyJoinL sep (w :: ws) = w ++ sep ++ pyJoinL sep ws := by
  cases ws with
  | nil => exact absurd rfl h
  | cons y ys => cases ys <;> simp [pyJoinL]

theorem pySplitL_joinL (l : List (List Char))
    (h : ∀ w ∈ l, w ≠ [] ∧ ∀ c ∈ w, pyIsSpace c = false) :
    pySplitL (pyJoinL [' '] l) = l := by
  induction l with
  | nil => rfl
  | cons w ws ih =>
    obtain ⟨hw, hwf⟩ := h w (by simp)
    cases ws with
    | nil => simp [pyJoinL, pySplitL, wordsAux_no_space w [] hwf, hw]
    | cons w' ws' =>
      have hjoin : pyJoinL [' '] (w :: w' :: ws') = w ++ ' ' :: pyJoinL [' '] (w' :: ws') := by
        rw [pyJoinL_cons_ne _ _ _ (by simp)]
        simp
      rw [pySplitL, hjoin, wordsAux_word_space w _ [] hwf]
      simp only [List.reverse_nil, List.nil_append, hw, if_neg, if_false]
      rw [show wordsAux (pyJoinL [' '] (w' :: ws')) [] = pySplitL (pyJoinL [' '] (w' :: ws')) from rfl]
      rw [ih (fun x hx => h x (by simp [hx]))]

theorem pySplit_words (s : String) :
    ∀ w ∈ pySplit s, w ≠ "" ∧ ∀ c ∈ w.data, pyIsSpace c = false := by
  intro w hw
  obtain ⟨wl, hwl, rfl⟩ := List.mem_map.mp hw
  obtain ⟨h1, h2⟩ := wordsAux_mem s.data [] (by simp) wl hwl
  exact ⟨fun hc => h1 (congrArg String.data hc), h2⟩

theorem pySplit_pyJoin (l : List String)
    (h : ∀ w ∈ l, w ≠ "" ∧ ∀ c ∈ w.data, pyIsSpace c = false) :
    pySplit (pyJoin " " l) = l := by
  have hL : pySplitL (pyJoinL [' '] (l.map String.data)) = l.map String.data := by
    refine pySplitL_joinL _ ?_
    intro w hw
    obtain ⟨x, hx, rfl⟩ := List.mem_map.mp hw
    obtain ⟨h1, h2⟩ := h x hx
    exact ⟨fun hcontra => h1 (String.ext hcontra), h2⟩
  show (pySplitL (String.mk (pyJoinL [' '] (l.map String.data))).data).map String.mk = l
  rw [show (String.mk (pyJoinL [' '] (l.map String.data))).data = pyJoinL [' '] (l.map String.data) from rfl]
  rw [hL, List.map_map]
  have : (String.mk ∘ String.data) = id := by
    funext s; cases s; rfl
  rw [this, List.map_id]

theorem pySplit_append_length_le (x y : String) :
    (pySplit (x ++ y)).length ≤ (pySplit x).length + (pySplit y).length := by
  have h := wordsAux_append_length_le x.data y.data []
  simpa [pySplit, pySplitL, String.data_append] using h

/-! ## The joined word list contains every inserted element -/

theorem pyJoinL_mem_substr (x : List Char) :
    ∀ (l1 l2 : List (List Char)),
      ∃ a b, pyJoinL [' '] (l1 ++ x :: l2) = a ++ x ++ b := by
  intro l1
  induction l1 with
  | nil =>
    intro l2
    cases l2 with
    | nil => exact ⟨[], [], by simp [pyJoinL]⟩
    | cons y ys =>
      refine ⟨[], ' ' :: pyJoinL [' '] (y :: ys), ?_⟩
      rw [List.nil_append, pyJoinL_cons_ne _ _ _ (by simp)]
      simp
  | cons w l1' ih =>
    intro l2
    obtain ⟨a, b, hab⟩ := ih l2
    refine ⟨w ++ ' ' :: a, b, ?_⟩
    rw [List.cons_append, pyJoinL_cons_ne _ _ _ (by simp), hab]
    simp [List.append_assoc]

theorem embedFact_substr (text fact : String) (pos : FactPosition) :
    IsSubstrOf fact (embedFact text fact pos) := by
  obtain ⟨a, b, hab⟩ :=
    pyJoinL_mem_substr fact.data
      (((pySplit text).take (insertIndex pos (pySplit text).length)).map String.data)
      (((pySplit text).drop (insertIndex pos (pySplit text).length)).map String.data)
  refine ⟨a, b, ?_⟩
  show (pyJoin " " (pyInsertAt (pySplit text)
      (insertIndex pos (pySplit text).length) fact)).data = a ++ fact.data ++ b
  rw [show (pyJoin " " (pyInsertAt (pySplit text) (insertIndex pos (pySplit text).length)
      fact)).data = pyJoinL [' '] ((pyInsertAt (pySplit text)
      (insertIndex pos (pySplit text).length) fact).map String.data) from rfl]
  rw [pyInsertAt, List.map_append, List.map_cons]
  exact hab

theorem genDocsAux_content (wordsPerDoc : Nat) (fact : String) (pos : FactPosition) :
    ∀ count rng docId d, d ∈ (genDocsAux wordsPerDoc fact pos rng count docId).1 →
      ∃ filler, d.content = embedFact filler fact pos := by
  intro count
  induction count with
  | zero => intro rng docId d hd; simp [genDocsAux] at hd
  | succ k ih =>
    intro rng docId d hd
    rw [genDocsAux] at hd
    rcases hg : generateFillerText rng wordsPerDoc with ⟨filler, rng1⟩
    rw [hg] at hd
    dsimp only at hd
    rcases hr : genDocsAux wordsPerDoc fact pos rng1 k (docId + 1) with ⟨rest, rng2⟩
    rw [hr] at hd
    dsimp only at hd
    rcases List.mem_cons.mp hd with hd | hd
    · exact ⟨filler, by rw [hd]⟩
    · exact ih rng1 (docId + 1) d (by rw [hr]; exact hd)

/-! ## Decimal rendering is injective -/

theorem decValAux_append (a : List Char) :
    ∀ b acc, decValAux (a ++ b) acc = decValAux b (decValAux a acc) := by
  induction a with
  | nil => intro b acc; rfl
  | cons c a ih => intro b acc; simp only [List.cons_append, decValAux]; exact ih b _

theorem digitChar_val : ∀ d, d < 10 → (Nat.digitChar d).toNat - 48 = d := by decide

theorem natToDecAux_roundtrip :
    ∀ fuel n, n < fuel → decValAux (natToDecAux fuel n) 0 = n := by
  intro fuel
  induction fuel with
  | zero => intro n hn; omega
  | succ f ih =>
    intro n hn
    by_cases h10 : n < 10
    · simp [natToDecAux, h10, decValAux, digitChar_val n h10]
    · rw [natToDecAux, if_neg h10, decValAux_append]
      have hdiv : n / 10 < n := Nat.div_lt_self (by omega) (by norm_num)
      rw [ih (n / 10) (by omega)]
      have hmod : n % 10 < 10 := Nat.mod_lt _ (by norm_num)
      simp only [decValAux, digitChar_val (n % 10) hmod]
      omega

theorem natToDec_injective : ∀ m n, natToDec m = natToDec n → m = n := by
  intro m n h
  have hdata : natToDecAux (m + 1) m = natToDecAux (n + 1) n :=
    congrArg String.data h
  have h1 := natToDecAux_roundtrip (m + 1) m (by omega)
  have h2 := natToDecAux_roundtrip (n + 1) n (by omega)
  rw [← h1, ← h2, hdata]

theorem stepKey_injective : ∀ m n, stepKey m = stepKey n → m = n := by
  intro m n h
  have hdata : ("step_" ++ natToDec m).data = ("step_" ++ natToDec n).data :=
    congrArg String.data h
  rw [String.data_append, String.data_append] at hdata
  exact natToDec_injective m n (String.ext (List.append_cancel_left hdata))

/-! ## Scratchpad memory lemmas -/

theorem memRead_memWrite_self (m : List (String × String)) (k v : String) :
    memRead (memWrite m k v) k = some v := by
  induction m with
  | nil => simp [memWrite, memRead]
  | cons p t ih =>
    rcases p with ⟨k', v'⟩
    by_cases h : k' = k
    · simp [memWrite, memRead, h]
    · simp [memWrite, memRead, h, ih]

theorem memRead_memWrite_ne (k k' v : String) (h : k' ≠ k) :
    ∀ m, memRead (memWrite m k v) k' = memRead m k' := by
  intro m
  induction m with
  | nil =>
    simp only [memWrite, memRead]
    rw [if_neg (fun hc => h hc.symm)]
  | cons p t ih =>
    rcases p with ⟨k₀, v₀⟩
    simp only [memWrite]
    by_cases h0 : k₀ = k
    · subst h0
      rw [if_pos rfl]
      simp only [memRead]
      rw [if_neg (fun hc => h hc.symm), if_neg (fun hc => h hc.symm)]
    · rw [if_neg h0]
      simp only [memRead]
      by_cases h1 : k₀ = k'
      · rw [if_pos h1, if_pos h1]
      · rw [if_neg h1, if_neg h1]
        exact ih

theorem writeStrategyScratchpad_succ (facts : List String) (k : Nat) :
    writeStrategyScratchpad facts (k + 1) =
      spWrite (writeStrategyScratchpad facts k) (stepKey (k + 1)) (facts.getD k "") := by
  simp [writeStrategyScratchpad, List.range_succ]

theorem pyInL_nil : ∀ t : List Char, pyInL [] t = true := by
  intro t
  cases t <;> simp [pyInL, List.isPrefixOf]

/-! ## Claim theorems -/

/-- C1 counterexample: with the same hooks (one row per iteration
invocation), 2 iterations with `use_parallel=true` yield 2 rows while 2
iterations with `use_parallel=false` yield 1 row, so the claimed
equality of total row counts fails. -/
theorem seq_vs_parallel_row_count_counterexample :
    cfgSeq2.useMultiprocessing = false ∧ cfgSeq2.iterations = 2 ∧
    cfgPar2.useMultiprocessing = true ∧ cfgPar2.iterations = 2 ∧
    (match runExperiment cfgPar2 unitHooks with
      | .ok r => r.rawResults.length
      | .error _ => 0) = 2 ∧
    (match runExperiment cfgSeq2 unitHooks with
      | .ok r => r.rawResults.length
      | .error _ => 0) = 1 ∧
    (2 : Nat) ≠ 1 := by
  decide

/-- C1 (amended): with `use_parallel=false`, `run()` executes the three
hooks `generate_data`, `execute_queries`, `evaluate_responses` exactly
once, regardless of `iterations`; the returned raw results are the rows
of that single pass, so an N-iteration parallel run matches the
sequential row count only when N = 1 (or iterations produce no rows). -/
theorem sequential_run_single_pass :
    ∀ (Data Resp Row Stats Viz : Type) (cfg : ExperimentConfig)
      (h : ExpHooks Data Resp Row Stats Viz) (rows : List Row),
      cfg.useMultiprocessing = false → runIteration h 0 = .ok rows →
      runExperiment cfg h = .ok (runSeq cfg h) ∧ (runSeq cfg h).rawResults = rows := by
  intro Data Resp Row Stats Viz cfg h rows hmp hit
  constructor
  · unfold runExperiment
    rw [if_neg (by rw [hmp]; simp)]
  · unfold runSeq
    rw [hit]
    dsimp only
    cases hA : h.analyze rows with
    | error e => rfl
    | ok stats =>
      dsimp only
      cases hV : (if cfg.generateVisualizations then h.visualize rows else .ok []) with
      | error e => rfl
      | ok viz =>
        dsimp only
        cases hS : (if cfg.saveResults then h.save rows stats else .ok ()) with
        | error e => rfl
        | ok u => rfl

/-- Witness for C1 (amended) at a concrete configuration. -/
theorem sequential_run_single_pass_witness :
    cfgSeq2.useMultiprocessing = false ∧
    runIteration unitHooks 0 = .ok [0] ∧
    runExperiment cfgSeq2 unitHooks = .ok (runSeq cfgSeq2 unitHooks) ∧
    (runSeq cfgSeq2 unitHooks).rawResults = [0] := by
  obtain ⟨h1, h2⟩ :=
    sequential_run_single_pass Unit Unit Nat Unit Unit cfgSeq2 unitHooks [0] rfl rfl
  exact ⟨rfl, rfl, h1, h2⟩

/-- C3: in a parallel run, a worker that raises is caught and
contributes an empty row list, the run returns `success=true`, and the
raw results are exactly the in-order concatenation of the rows of the
iterations that completed. -/
theorem parallel_worker_isolation :
    ∀ (Data Resp Row Stats Viz : Type) (cfg : ExperimentConfig)
      (h : ExpHooks Data Resp Row Stats Viz) (r : ExperimentResults Row Stats Viz),
      1 < cfg.iterations → cfg.useMultiprocessing = true →
      runExperiment cfg h = .ok r →
      r.success = true ∧
      r.rawResults = ((List.range cfg.iterations).map (runSingleIteration h)).flatten ∧
      (∀ i e, runIteration h i = .error e → runSingleIteration h i = []) := by
  intro Data Resp Row Stats Viz cfg h r h1 h2 hrun
  have hcaught : ∀ i e, runIteration h i = .error e → runSingleIteration h i = [] := by
    intro i e hie
    simp [runSingleIteration, hie]
  unfold runExperiment at hrun
  rw [if_pos ⟨h1, by rw [h2]⟩] at hrun
  unfold runParallel at hrun
  cases hA : h.analyze (parallelRows cfg h) with
  | error e =>
    rw [hA] at hrun
    exact absurd hrun (by simp)
  | ok stats =>
    rw [hA] at hrun
    dsimp only at hrun
    cases hV : (if cfg.generateVisualizations
        then h.visualize (parallelRows cfg h) else .ok []) with
    | error e =>
      rw [hV] at hrun
      exact absurd hrun (by simp)
    | ok viz =>
      rw [hV] at hrun
      dsimp only at hrun
      cases hS : (if cfg.saveResults
          then h.save (parallelRows cfg h) stats else .ok ()) with
      | error e =>
        rw [hS] at hrun
        exact absurd hrun (by simp)
      | ok u =>
        rw [hS] at hrun
        dsimp only at hrun
        simp only [Except.ok.injEq] at hrun
        subst hrun
        exact ⟨rfl, rfl, hcaught⟩

/-- Witness for C3: 3 parallel iterations where iteration 1 raises in
`generate_data`; the run succeeds with the rows of iterations 0 and 2. -/
theorem parallel_worker_isolation_witness :
    runExperiment cfgPar3 failSecondIterationHooks =
      .ok (⟨[0, 2], some (), [], true, none⟩ : ExperimentResults Nat Unit Unit) ∧
    (⟨[0, 2], some (), [], true, none⟩ : ExperimentResults Nat Unit Unit).success = true ∧
    (⟨[0, 2], some (), [], true, none⟩ : ExperimentResults Nat Unit Unit).rawResults =
      ((List.range cfgPar3.iterations).map (runSingleIteration failSecondIterationHooks)).flatten := by
  have hrun : runExperiment cfgPar3 failSecondIterationHooks =
      .ok (⟨[0, 2], some (), [], true, none⟩ : ExperimentResults Nat Unit Unit) := rfl
  obtain ⟨hs, hr, _⟩ :=
    parallel_worker_isolation Unit Unit Nat Unit Unit cfgPar3 failSecondIterationHooks _
      (by decide) rfl hrun
  exact ⟨hrun, hs, hr⟩

/-- C4: the non-parallel path of `run()` never propagates an exception:
it yields an `ExperimentResults` value, and whenever any stage of the
sequential path raises with message `e`, that value has `success=false`
and `error=e`. -/
theorem sequential_error_capture :
    ∀ (Data Resp Row Stats Viz : Type) (cfg : ExperimentConfig)
      (h : ExpHooks Data Resp Row Stats Viz),
      (¬(1 < cfg.iterations ∧ cfg.useMultiprocessing = true) →
        runExperiment cfg h = .ok (runSeq cfg h)) ∧
      (∀ e, seqStageError cfg h = some e →
        (runSeq cfg h).success = false ∧ (runSeq cfg h).error = some e) := by
  intro Data Resp Row Stats Viz cfg h
  constructor
  · intro hnp
    unfold runExperiment
    rw [if_neg hnp]
  · intro e he
    unfold seqStageError at he
    unfold runSeq
    cases hIt : runIteration h 0 with
    | error e' =>
      rw [hIt] at he
      dsimp only at he ⊢
      simp only [Option.some.injEq] at he
      subst he
      exact ⟨rfl, rfl⟩
    | ok rows =>
      rw [hIt] at he
      dsimp only at he ⊢
      cases hA : h.analyze rows with
      | error e' =>
        rw [hA] at he
        dsimp only at he ⊢
        simp only [Option.some.injEq] at he
        subst he
        exact ⟨rfl, rfl⟩
      | ok stats =>
        rw [hA] at he
        dsimp only at he ⊢
        cases hV : (if cfg.generateVisualizations then h.visualize rows else .ok []) with
        | error e' =>
          rw [hV] at he
          dsimp only at he ⊢
          simp only [Option.some.injEq] at he
          subst he
          exact ⟨rfl, rfl⟩
        | ok viz =>
          rw [hV] at he
          dsimp only at he ⊢
          cases hS : (if cfg.saveResults then h.save rows stats else .ok ()) with
          | error e' =>
            rw [hS] at he
            dsimp only at he ⊢
            simp only [Option.some.injEq] at he
            subst he
            exact ⟨rfl, rfl⟩
          | ok u =>
            rw [hS] at he
            dsimp only at he
            exact absurd he (by simp)

/-- Witness for C4: a sequential run whose `generate_data` raises
"boom" yields `success=false` with that message. -/
theorem sequential_error_capture_witness :
    runExperiment cfgSeq2 failGenerateHooks = .ok (runSeq cfgSeq2 failGenerateHooks) ∧
    (runSeq cfgSeq2 failGenerateHooks).success = false ∧
    (runSeq cfgSeq2 failGenerateHooks).error = some "boom" := by
  obtain ⟨h1, h2⟩ :=
    sequential_error_capture Unit Unit Nat Unit Unit cfgSeq2 failGenerateHooks
  obtain ⟨hsucc, herr⟩ := h2 "boom" (by decide)
  exact ⟨h1 (by decide), hsucc, herr⟩

/-- C5: the generator is deterministic given a seed.  `random.Random`
is a pure function of the seed (modelled by the seed-to-stream family),
so two `DocumentGenerator` instances constructed with the same seed
return equal document lists — equal `content` strings and equal
metadata at every position. -/
theorem generator_seed_determinism :
    ∀ (family : Nat → Nat → Nat) (seed : Nat) (g1 g2 : Rng),
      g1 = mkRng family seed → g2 = mkRng family seed →
      ∀ (numDocs wordsPerDoc : Nat) (fact : String) (pos : FactPosition),
        generateDocuments g1 numDocs wordsPerDoc fact pos =
          generateDocuments g2 numDocs wordsPerDoc fact pos := by
  intro family seed g1 g2 h1 h2 numDocs wordsPerDoc fact pos
  subst h1
  subst h2
  rfl

/-- Witness for C5 at a concrete seed and parameter tuple. -/
theorem generator_seed_determinism_witness :
    generateDocuments (mkRng (fun _ _ => 0) 42) 3 120 "X" FactPosition.middle =
      generateDocuments (mkRng (fun _ _ => 0) 42) 3 120 "X" FactPosition.middle :=
  generator_seed_determinism (fun _ _ => 0) 42 _ _ rfl rfl 3 120 "X" FactPosition.middle

/-- C9: in a WRITE-strategy run over `facts`, once step `i` has written
its fact under `step_{i+1}`, reading that key after any `k > i` steps of
the same run returns exactly that fact (never `none`): later steps write
under distinct keys and never remove or overwrite the entry. -/
theorem write_strategy_fact_persistence (facts : List String) (i : Nat) :
    ∀ k, i < k → k ≤ facts.length →
      spRead (writeStrategyScratchpad facts k) (stepKey (i + 1)) = some (facts.getD i "") := by
  intro k
  induction k with
  | zero => intro h _; omega
  | succ k ih =>
    intro hik hk
    rw [writeStrategyScratchpad_succ]
    by_cases hek : i = k
    · subst hek
      exact memRead_memWrite_self _ _ _
    · have hne : stepKey (i + 1) ≠ stepKey (k + 1) := fun hc => by
        have := stepKey_injective _ _ hc
        omega
      show memRead (memWrite (writeStrategyScratchpad facts k).memory
        (stepKey (k + 1)) (facts.getD k "")) (stepKey (i + 1)) = some (facts.getD i "")
      rw [memRead_memWrite_ne _ _ _ hne]
      exact ih (by omega) (by omega)

/-- Witness for C9: after 2 steps over a 3-fact script, `step_1` still
reads back the fact written at step 0. -/
theorem write_strategy_fact_persistence_witness :
    (0 : Nat) < 2 ∧ (2 : Nat) ≤ 3 ∧
    spRead (writeStrategyScratchpad ["alpha", "beta", "gamma"] 2) (stepKey 1) = some "alpha" :=
  ⟨by decide, by decide,
   write_strategy_fact_persistence ["alpha", "beta", "gamma"] 0 2 (by decide) (by decide)⟩

/-- C10: under the `contains` method, an `expected` string that
preprocesses to the empty string scores 1.0 against every response,
because the empty string is a substring of every string. -/
theorem contains_empty_expected_full_score (ev : AccuracyEvaluator)
    (response expected : String) (hm : ev.method = EvalMethod.contains)
    (he : preprocess ev expected = "") :
    evaluate ev response expected = 1 := by
  simp only [evaluate, hm, he, containsMatch]
  rw [if_pos]
  exact pyInL_nil _

/-- Witness for C10: a whitespace-and-punctuation `expected` scores 1.0
against an unrelated response. -/
theorem contains_empty_expected_full_score_witness :
    preprocess ⟨EvalMethod.contains, false⟩ " ?!., " = "" ∧
    evaluate ⟨EvalMethod.contains, false⟩ "Hello world" " ?!., " = 1 :=
  ⟨by decide,
   contains_empty_expected_full_score ⟨EvalMethod.contains, false⟩ "Hello world" " ?!., "
     rfl (by decide)⟩

/-- C7: `calculate_statistics` collapses the 95% confidence interval to
`(mean, mean)` whenever `count <= 1` or the standard deviation is `0`;
in particular a singleton `[x]` yields `std = 0` and `CI = (x, x)`. -/
theorem statistics_ci_collapse :
    (∀ (scores : List ℚ) (s : Statistics), calculateStatistics scores = .ok s →
      (s.count ≤ 1 ∨ s.std = 0) → s.confidenceInterval95 = (s.mean, s.mean)) ∧
    (∀ x : ℚ, calculateStatistics [x] =
      .ok ⟨(x : ℝ), 0, (x : ℝ), (x : ℝ), 1, ((x : ℝ), (x : ℝ))⟩) := by
  constructor
  · intro scores s hok hcond
    by_cases hE : scores = []
    · rw [hE] at hok
      exact absurd hok (by simp [calculateStatistics])
    · unfold calculateStatistics at hok
      rw [if_neg hE] at hok
      dsimp only at hok
      by_cases hN : 1 < scores.length
      · rw [if_pos hN] at hok
        simp only [Except.ok.injEq] at hok
        subst hok
        rcases hcond with hcond | hcond
        · exact absurd hcond (by simp; omega)
        · dsimp only at hcond ⊢
          rw [hcond]
          norm_num
      · rw [if_neg hN] at hok
        simp only [Except.ok.injEq] at hok
        subst hok
        rfl
  · intro x
    unfold calculateStatistics
    rw [if_neg (by simp)]
    dsimp only
    rw [if_neg (by simp)]
    simp

/-- Witness for C7: a singleton list of scores. -/
theorem statistics_ci_collapse_witness :
    ∃ s : Statistics, calculateStatistics [(3 : ℚ)] = .ok s ∧
      s.std = 0 ∧ s.confidenceInterval95 = (s.mean, s.mean) := by
  refine ⟨_, statistics_ci_collapse.2 3, rfl, ?_⟩
  exact statistics_ci_collapse.1 [3] _ (statistics_ci_collapse.2 3) (Or.inl (by norm_num))

/-- All four properties of `_partial_match` on already-preprocessed
strings, with `A`/`B` the word sets of response/expected. -/
theorem partialMatch_spec (r e : String) :
    (0 ≤ partialMatch r e ∧ partialMatch r e ≤ 1) ∧
    ((pySplit e).toFinset ≠ ∅ →
      partialMatch r e = (((pySplit r).toFinset ∩ (pySplit e).toFinset).card : ℚ) /
        (((pySplit r).toFinset ∪ (pySplit e).toFinset).card : ℚ)) ∧
    (partialMatch r e = 1 ↔
      ((pySplit r).toFinset = (pySplit e).toFinset ∧ (pySplit r).toFinset ≠ ∅)) ∧
    (((pySplit r).toFinset ∩ (pySplit e).toFinset = ∅ ∨ (pySplit e).toFinset = ∅) →
      partialMatch r e = 0) := by
  set A : Finset String := (pySplit r).toFinset with hA
  set B : Finset String := (pySplit e).toFinset with hB
  by_cases hew : B = ∅
  · have h0 : partialMatch r e = 0 := by
      unfold partialMatch
      rw [if_pos hew]
    refine ⟨⟨by rw [h0], by rw [h0]; norm_num⟩, fun hne => absurd hew hne, ?_, fun _ => h0⟩
    rw [h0]
    constructor
    · intro h01; exact absurd h01 (by norm_num)
    · rintro ⟨heq, hne⟩; exact absurd (heq.trans hew) hne
  · have hU : A ∪ B ≠ ∅ := fun hc => hew (Finset.union_eq_empty.mp hc).2
    have hUcard : (0 : ℚ) < ((A ∪ B).card : ℚ) := by
      exact_mod_cast Finset.card_pos.mpr (Finset.nonempty_iff_ne_empty.mpr hU)
    have hval : partialMatch r e = ((A ∩ B).card : ℚ) / ((A ∪ B).card : ℚ) := by
      unfold partialMatch
      rw [if_neg hew, if_neg hU]
    have hsub : A ∩ B ⊆ A ∪ B := Finset.inter_subset_left.trans Finset.subset_union_left
    have hcardle : (A ∩ B).card ≤ (A ∪ B).card := Finset.card_le_card hsub
    refine ⟨⟨?_, ?_⟩, fun _ => hval, ?_, ?_⟩
    · rw [hval]
      exact div_nonneg (by positivity) (le_of_lt hUcard)
    · rw [hval]
      rw [div_le_one hUcard]
      exact_mod_cast hcardle
    · rw [hval, div_eq_one_iff_eq (ne_of_gt hUcard)]
      constructor
      · intro hcc
        have hcc' : (A ∩ B).card = (A ∪ B).card := by exact_mod_cast hcc
        have hIU : A ∩ B = A ∪ B := Finset.eq_of_subset_of_card_le hsub (le_of_eq hcc'.symm)
        have heq : A = B := by
          apply Finset.Subset.antisymm
          · intro a ha
            have hmem : a ∈ A ∪ B := Finset.mem_union_left _ ha
            rw [← hIU] at hmem
            exact (Finset.mem_inter.mp hmem).2
          · intro a ha
            have hmem : a ∈ A ∪ B := Finset.mem_union_right _ ha
            rw [← hIU] at hmem
            exact (Finset.mem_inter.mp hmem).1
        exact ⟨heq, fun hc => hew (heq.symm.trans hc)⟩
      · rintro ⟨heq, hne⟩
        rw [heq]
        simp
    · intro hd
      rcases hd with hd | hd
      · rw [hval, hd]
        simp
      · exact absurd hd hew

/-- C6: with the `partial` method, `evaluate` returns the Jaccard
similarity of the preprocessed word sets; the score lies in `[0, 1]`,
equals 1 exactly when the word sets are equal and non-empty, and is 0
whenever the sets are disjoint or `expected` has no words. -/
theorem partial_match_jaccard (ev : AccuracyEvaluator) (response expected : String)
    (hm : ev.method = EvalMethod.partialM) :
    (0 ≤ evaluate ev response expected ∧ evaluate ev response expected ≤ 1) ∧
    (wordSet ev expected ≠ ∅ →
      evaluate ev response expected =
        ((wordSet ev response ∩ wordSet ev expected).card : ℚ) /
          ((wordSet ev response ∪ wordSet ev expected).card : ℚ)) ∧
    (evaluate ev response expected = 1 ↔
      (wordSet ev response = wordSet ev expected ∧ wordSet ev response ≠ ∅)) ∧
    ((wordSet ev response ∩ wordSet ev expected = ∅ ∨ wordSet ev expected = ∅) →
      evaluate ev response expected = 0) := by
  have hev : evaluate ev response expected =
      partialMatch (preprocess ev response) (preprocess ev expected) := by
    simp only [evaluate, hm]
  rw [hev]
  exact partialMatch_spec (preprocess ev response) (preprocess ev expected)

/-- Witness for C6 at concrete strings: response and expected sharing
one of three words score 1/3. -/
theorem partial_match_jaccard_witness :
    (⟨EvalMethod.partialM, false⟩ : AccuracyEvaluator).method = EvalMethod.partialM ∧
    evaluate ⟨EvalMethod.partialM, false⟩ "alpha beta" "beta gamma" = 1 / 3 := by
  refine ⟨rfl, ?_⟩
  have h :=
    (partial_match_jaccard ⟨EvalMethod.partialM, false⟩ "alpha beta" "beta gamma" rfl).2.1
      (Finset.ne_empty_of_mem
        (show "beta" ∈ wordSet ⟨EvalMethod.partialM, false⟩ "beta gamma" by decide))
  have h1 : (wordSet (⟨EvalMethod.partialM, false⟩ : AccuracyEvaluator) "alpha beta" ∩
      wordSet ⟨EvalMethod.partialM, false⟩ "beta gamma").card = 1 := by decide
  have h2 : (wordSet (⟨EvalMethod.partialM, false⟩ : AccuracyEvaluator) "alpha beta" ∪
      wordSet ⟨EvalMethod.partialM, false⟩ "beta gamma").card = 3 := by decide
  rw [h, h1, h2]
  norm_num

/-- C8 counterexample: with `max_words = 1` and method `first_last`,
`half = 0` and Python's `words[-0:]` is the whole word list, so
summarizing a 3-word text yields 4 words, exceeding
`max_words + 2 = 3`. -/
theorem summarize_budget_counterexample :
    (pySplit (summarize ⟨1⟩ "a b c" "first_last")).length = 4 ∧
    ¬((pySplit (summarize ⟨1⟩ "a b c" "first_last")).length ≤ 1 + 2) := by
  decide

/-- C8 (amended): for every summarizer with `max_words ≥ 2`, every input
text and every method string (`truncate`, `first_last`, `middle`, or
unrecognized), the summary's word count is at most `max_words` plus the
two marker tokens.  (For `max_words ≤ 1`, `first_last` can return the
whole text — see the counterexample.) -/
theorem summarize_word_budget (sm : Summarizer) (text method : String)
    (h2 : 2 ≤ sm.maxWords) :
    (pySplit (summarize sm text method)).length ≤ sm.maxWords + 2 := by
  unfold summarize
  by_cases ht : text = ""
  · rw [if_pos ht]
    show (pySplit "").length ≤ sm.maxWords + 2
    simp [pySplit, pySplitL, wordsAux]
  · rw [if_neg ht]
    dsimp only
    by_cases hlen : (pySplit text).length ≤ sm.maxWords
    · rw [if_pos hlen]
      omega
    · rw [if_neg hlen]
      push_neg at hlen
      have hjoin : ∀ l : List String, (∀ w ∈ l, w ∈ pySplit text) →
          pySplit (pyJoin " " l) = l := fun l hl =>
        pySplit_pyJoin l (fun w hw => pySplit_words text w (hl w hw))
      have htrunc : (pySplit (pyJoin " " ((pySplit text).take sm.maxWords) ++ "...")).length ≤
          sm.maxWords + 2 := by
        calc (pySplit (pyJoin " " ((pySplit text).take sm.maxWords) ++ "...")).length
            ≤ (pySplit (pyJoin " " ((pySplit text).take sm.maxWords))).length +
              (pySplit "...").length := pySplit_append_length_le _ _
          _ = ((pySplit text).take sm.maxWords).length + 1 := by
              rw [hjoin _ (fun w hw => List.take_subset _ _ hw),
                show (pySplit "...").length = 1 from by decide]
          _ ≤ sm.maxWords + 2 := by
              rw [List.length_take]
              omega
      by_cases hm1 : method = "truncate"
      · rw [if_pos hm1]
        exact htrunc
      · rw [if_neg hm1]
        by_cases hm2 : method = "first_last"
        · rw [if_pos hm2]
          have hhalf1 : 1 ≤ sm.maxWords / 2 := by omega
          have hhalfle : sm.maxWords / 2 ≤ sm.maxWords := Nat.div_le_self _ _
          have hlast : pyLastSlice (pySplit text) (sm.maxWords / 2) =
              (pySplit text).drop ((pySplit text).length - sm.maxWords / 2) := by
            unfold pyLastSlice
            rw [if_neg (by omega)]
          calc (pySplit (pyJoin " " ((pySplit text).take (sm.maxWords / 2)) ++ " [...] " ++
                pyJoin " " (pyLastSlice (pySplit text) (sm.maxWords / 2)))).length
              ≤ (pySplit (pyJoin " " ((pySplit text).take (sm.maxWords / 2)) ++ " [...] ")).length +
                (pySplit (pyJoin " " (pyLastSlice (pySplit text) (sm.maxWords / 2)))).length :=
                pySplit_append_length_le _ _
            _ ≤ ((pySplit (pyJoin " " ((pySplit text).take (sm.maxWords / 2)))).length +
                (pySplit " [...] ").length) +
                (pySplit (pyJoin " " (pyLastSlice (pySplit text) (sm.maxWords / 2)))).length := by
                have := pySplit_append_length_le
                  (pyJoin " " ((pySplit text).take (sm.maxWords / 2))) " [...] "
                omega
            _ = (((pySplit text).take (sm.maxWords / 2)).length + 1) +
                (pyLastSlice (pySplit text) (sm.maxWords / 2)).length := by
                rw [hjoin _ (fun w hw => List.take_subset _ _ hw)]
                rw [hjoin _ (fun w hw => by
                  rw [hlast] at hw
                  exact List.drop_subset _ _ hw)]
                rfl
            _ ≤ sm.maxWords + 2 := by
                rw [List.length_take, hlast, List.length_drop]
                omega
        · rw [if_neg hm2]
          by_cases hm3 : method = "middle"
          · rw [if_pos hm3]
            calc (pySplit ("[...] " ++ pyJoin " "
                  (((pySplit text).drop (((pySplit text).length - sm.maxWords) / 2)).take
                    sm.maxWords) ++ " [...]")).length
                ≤ (pySplit ("[...] " ++ pyJoin " "
                    (((pySplit text).drop (((pySplit text).length - sm.maxWords) / 2)).take
                      sm.maxWords))).length + (pySplit " [...]").length :=
                  pySplit_append_length_le _ _
              _ ≤ ((pySplit "[...] ").length + (pySplit (pyJoin " "
                  (((pySplit text).drop (((pySplit text).length - sm.maxWords) / 2)).take
                    sm.maxWords))).length) + (pySplit " [...]").length := by
                  have := pySplit_append_length_le "[...] " (pyJoin " "
                    (((pySplit text).drop (((pySplit text).length - sm.maxWords) / 2)).take
                      sm.maxWords))
                  omega
              _ = (1 + (((pySplit text).drop (((pySplit text).length - sm.maxWords) / 2)).take
                    sm.maxWords).length) + 1 := by
                  rw [hjoin _ (fun w hw =>
                    List.drop_subset _ _ (List.take_subset _ _ hw))]
                  rfl
              _ ≤ sm.maxWords + 2 := by
                  rw [List.length_take]
                  omega
          · rw [if_neg hm3]
            exact htrunc

/-- Witness for C8 (amended) at a concrete summarizer and text. -/
theorem summarize_word_budget_witness :
    (2 : Nat) ≤ 2 ∧ (pySplit (summarize ⟨2⟩ "a b c d e" "first_last")).length ≤ 2 + 2 :=
  ⟨by decide, summarize_word_budget ⟨2⟩ "a b c d e" "first_last" (by decide)⟩

set_option maxRecDepth 100000 in
/-- C2 counterexample: `fact = "The"` is a valid input (non-empty after
stripping), but every filled template also contains `"The"`, so the
generated document contains the fact 11 times rather than exactly
once. -/
theorem fact_exactly_once_counterexample :
    (1 : Nat) ≠ 0 ∧ ¬((100 : Nat) < 100) ∧ pyStrip "The" ≠ "" ∧
    (match generateDocuments (mkRng (fun _ _ => 0) 0) 1 100 "The" FactPosition.start with
      | .ok (d :: _, _) => occCount "The" d.content
      | _ => 0) = 11 ∧ (11 : Nat) ≠ 1 := by
  refine ⟨by decide, by decide, by decide, by decide, by decide⟩

/-- C2 (amended): for every valid input, every generated document's
content is the filler text with the fact inserted exactly once as a
single whole word-sequence at the documented index
(`min(20, W/4)` / `W/2` / `max(W-20, 3W/4)`), and hence contains the
fact at least once as a substring.  Exactly-once containment does not
hold in general (see the counterexample). -/
theorem generate_documents_fact_embedding :
    ∀ (rng : Rng) (numDocs wordsPerDoc : Nat) (fact : String) (pos : FactPosition)
      (p : List Document × Rng),
      numDocs ≠ 0 → ¬(wordsPerDoc < 100) → pyStrip fact ≠ "" →
      generateDocuments rng numDocs wordsPerDoc fact pos = .ok p →
      ∀ d ∈ p.1, ∃ filler,
        d.content = pyJoin " " (pyInsertAt (pySplit filler)
          (insertIndex pos (pySplit filler).length) fact) ∧
        IsSubstrOf fact d.content := by
  intro rng numDocs wordsPerDoc fact pos p hn hw hf hgen d hd
  unfold generateDocuments at hgen
  rw [if_neg hn, if_neg hw, if_neg hf] at hgen
  simp only [Except.ok.injEq] at hgen
  subst hgen
  obtain ⟨filler, hc⟩ := genDocsAux_content wordsPerDoc fact pos numDocs rng 0 d hd
  refine ⟨filler, ?_, ?_⟩
  · rw [hc]
    rfl
  · rw [hc]
    exact embedFact_substr filler fact pos

set_option maxRecDepth 100000 in
/-- Witness for C2 (amended) on a concrete valid generation. -/
theorem generate_documents_fact_embedding_witness :
    (1 : Nat) ≠ 0 ∧ ¬((100 : Nat) < 100) ∧ pyStrip "X" ≠ "" ∧
    ∀ d ∈ (genDocsAux 100 "X" FactPosition.start (mkRng (fun _ _ => 0) 0) 1 0).1,
      ∃ filler,
        d.content = pyJoin " " (pyInsertAt (pySplit filler)
          (insertIndex FactPosition.start (pySplit filler).length) "X") ∧
        IsSubstrOf "X" d.content :=
  ⟨by decide, by decide, by decide,
   generate_documents_fact_embedding (mkRng (fun _ _ => 0) 0) 1 100 "X" FactPosition.start
     (genDocsAux 100 "X" FactPosition.start (mkRng (fun _ _ => 0) 0) 1 0)
     (by decide) (by decide) (by decide) rfl⟩

end ContextWindowsLab
